import Mathlib

/-!
A verification development for the build harness (harness/build.go):
alias resolution, the build retry loop, scratch-directory preparation and
the compiler-diagnostic parser, together with theorems about the
properties the specification states for them.
-/

set_option maxHeartbeats 1000000

namespace Harness

/-! ## Data model

Shallow embedding of the data structures used by harness/build.go.
The field names follow the Go source. -/

/-- Type expression of a method argument; only the package name qualifier
is relevant to alias computation (field PkgName in the source). -/
structure TypeExpr where
  PkgName : String
  deriving DecidableEq, Repr

/-- A controller-method argument (harness MethodArg). -/
structure MethodArg where
  Name : String
  ImportPath : String
  TypeExpr : TypeExpr
  deriving DecidableEq, Repr

/-- A controller method (harness MethodSpec); render calls are not needed
by the alias computation. -/
structure MethodSpec where
  Name : String
  Args : List MethodArg
  deriving DecidableEq, Repr

/-- A discovered controller or test-suite type (harness TypeInfo). -/
structure TypeInfo where
  StructName : String
  ImportPath : String
  PackageName : String
  MethodSpecs : List MethodSpec
  deriving DecidableEq, Repr

/-- The aggregate analysis result (harness SourceInfo); validation keys are
irrelevant to the claims treated here. -/
structure SourceInfo where
  ControllerSpecs : List TypeInfo
  TestSuites : List TypeInfo
  InitImportPaths : List String
  deriving DecidableEq, Repr

/-- Modelled from the spec: the structured error record (revel.Error,
declared outside this repository); its fields are exactly those the spec
lists for CompileError and that build.go populates. -/
structure RevelError where
  SourceType : String
  Title : String
  Description : String
  Path : String
  Line : Nat
  SourceLines : List String
  MetaError : String
  deriving DecidableEq, Repr

/-! ## The alias table

Go's map[string]string is modelled as an association list; keys are only
ever inserted when absent, so lookup agrees with map semantics. -/

/-- The alias table: import path to alias. -/
abbrev AliasMap := List (String × String)

/-- Map lookup (first matching key). -/
def mget (m : AliasMap) (k : String) : Option String :=
  match m with
  | [] => none
  | (k', v) :: t => if k' = k then some v else mget t k

/-- Map insert; only used on absent keys. -/
def mset (m : AliasMap) (k v : String) : AliasMap :=
  m ++ [(k, v)]

/-- containsValue from build.go: does any entry map to this value. -/
def containsValue (m : AliasMap) (v : String) : Bool :=
  m.any (fun p => p.2 == v)

/-! ## Decimal printing: injectivity of Nat.repr

makePackageAlias forms candidate aliases pkgName ++ Nat.repr i (the
fmt.Sprintf call in the source); distinctness of those candidates needs
injectivity of decimal printing, proved here via a parse round trip. -/

/-- Parse a decimal digit list back to a number. -/
def parseDec (l : List Char) : Nat :=
  l.foldl (fun a c => a * 10 + (c.toNat - 48)) 0

/-! ## makePackageAlias, addAlias, calcImportAliases (build.go 130-187)

The Go for-loop in makePackageAlias is embedded with explicit fuel; fuel
m.length + 2 always suffices (proved below), so the fuel-exhausted branch
is unreachable. -/

/-- The loop body of makePackageAlias: current candidate al, next suffix i. -/
def makeAliasLoop (m : AliasMap) (pkgName : String) : String → Nat → Nat → String
  | al, _, 0 => al
  | al, i, fuel+1 =>
    if containsValue m al then makeAliasLoop m pkgName (pkgName ++ Nat.repr i) (i+1) fuel
    else al

/-- makePackageAlias from build.go: try pkgName, then pkgName0, pkgName1, ... -/
def makePackageAlias (m : AliasMap) (pkgName : String) : String :=
  makeAliasLoop m pkgName pkgName 0 (m.length + 2)

/-- addAlias from build.go: insert only if the import path is not yet keyed. -/
def addAlias (m : AliasMap) (importPath pkgName : String) : AliasMap :=
  match mget m importPath with
  | some _ => m
  | none => mset m importPath (makePackageAlias m pkgName)

/-- Inner loop over a method's args (skips args with empty ImportPath). -/
def addArgAlias (m : AliasMap) (arg : MethodArg) : AliasMap :=
  if arg.ImportPath = "" then m else addAlias m arg.ImportPath arg.TypeExpr.PkgName

/-- Loop over one method spec's args. -/
def addMethodAliases (m : AliasMap) (ms : MethodSpec) : AliasMap :=
  ms.Args.foldl addArgAlias m

/-- Loop body for one TypeInfo: its own import, then all method args. -/
def addSpecAliases (m : AliasMap) (spec : TypeInfo) : AliasMap :=
  spec.MethodSpecs.foldl addMethodAliases (addAlias m spec.ImportPath spec.PackageName)

/-- The spec-traversal phase of calcImportAliases over ControllerSpecs then
TestSuites (the typeArrays loop). -/
def specAliases (src : SourceInfo) : AliasMap :=
  (src.ControllerSpecs ++ src.TestSuites).foldl addSpecAliases []

/-- The InitImportPaths phase: absent keys get the discard alias. -/
def addInitAliases (m : AliasMap) (paths : List String) : AliasMap :=
  paths.foldl (fun acc p =>
    match mget acc p with
    | some _ => acc
    | none => mset acc p "_") m

/-- calcImportAliases from build.go. -/
def calcImportAliases (src : SourceInfo) : AliasMap :=
  addInitAliases (specAliases src) src.InitImportPaths

/-! ### Uniqueness invariant: no two import paths share an alias other
than the discard alias. -/

/-- Values are pairwise distinct except possibly the discard alias. -/
def GoodMap (m : AliasMap) : Prop :=
  ∀ k1 k2 v, mget m k1 = some v → mget m k2 = some v → v ≠ "_" → k1 = k2

/-! ## The diagnostic parser (newCompileError, build.go 189-225)

The regex (?m)^([^:#]+):(\d+):(\d+:)? (.*)$ is embedded as a scanner: a
match may start at the beginning of the output or right after a newline;
the path class [^:#] accepts any character except colon and hash
(including newline, as in RE2, where only the dot avoids newline); the
message group runs to the end of the line. FindSubmatch takes the
leftmost match.

The column group, line-number conversion (strconv.Atoi saturates at the
int64 maximum on range errors and the error is discarded) and the message
are handled by matchRest. -/

/-- strconv.Atoi on a digit string: saturates at the largest int64. -/
def atoi64 (n : Nat) : Nat := min n (2 ^ 63 - 1)

/-- Characters admitted by the path class of the diagnostic regex. -/
def pathChar (c : Char) : Bool := !(c == ':') && !(c == '#')

/-- Matches :(\d+):(\d+:)? (.*)$ — everything of the diagnostic line after
the path group. Returns the parsed line number and the message. -/
def matchRest (r1 : List Char) : Option (Nat × String) :=
  match r1 with
  | ':' :: r2 =>
    let d := r2.takeWhile Char.isDigit
    let r3 := r2.dropWhile Char.isDigit
    if d.isEmpty then none else
    match r3 with
    | ':' :: r4 =>
      let e := r4.takeWhile Char.isDigit
      let r5 := r4.dropWhile Char.isDigit
      match e, r5 with
      | _ :: _, ':' :: ' ' :: r6 =>
        some (atoi64 (parseDec d), (r6.takeWhile (fun c => !(c == '\n'))).asString)
      | _, _ =>
        match r4 with
        | ' ' :: r6 =>
          some (atoi64 (parseDec d), (r6.takeWhile (fun c => !(c == '\n'))).asString)
        | _ => none
    | _ => none
  | _ => none

/-- Attempts the diagnostic pattern at one start position. -/
def matchAt (cs : List Char) : Option (String × Nat × String) :=
  let p := cs.takeWhile pathChar
  if p.isEmpty then none else
  match matchRest (cs.dropWhile pathChar) with
  | some (ln, d) => some (p.asString, ln, d)
  | none => none

/-- Scans for the next start of line and tries the pattern there. -/
def findDiagAux : List Char → Option (String × Nat × String)
  | [] => none
  | c :: rest =>
    if c = '\n' then
      match matchAt rest with
      | some t => some t
      | none => findDiagAux rest
    else findDiagAux rest

/-- Leftmost match of the diagnostic pattern (FindSubmatch). -/
def findDiag (cs : List Char) : Option (String × Nat × String) :=
  match matchAt cs with
  | some t => some t
  | none => findDiagAux cs

/-- The structured error built from a recognized diagnostic: read the
referenced source file for context; a read failure fills MetaError and
leaves SourceLines empty. -/
def compileErrorOf (readLines : String → Except String (List String))
    (absPath : String → String) (p : String) (ln : Nat) (d : String) : RevelError :=
  match readLines (absPath p) with
  | Except.error e =>
    { SourceType := "Go code", Title := "Go Compilation Error",
      Description := d, Path := p, Line := ln,
      SourceLines := [], MetaError := absPath p ++ ": " ++ e }
  | Except.ok ls =>
    { SourceType := "Go code", Title := "Go Compilation Error",
      Description := d, Path := p, Line := ln,
      SourceLines := ls, MetaError := "" }

/-- newCompileError from build.go; the filesystem (revel.ReadLines) and
filepath.Abs are passed as functions. -/
def newCompileError (readLines : String → Except String (List String))
    (absPath : String → String) (output : String) : RevelError :=
  match findDiag output.data with
  | none =>
    { SourceType := "Go code", Title := "Go Compilation Error",
      Description := "See console for build error.", Path := "", Line := 0,
      SourceLines := [], MetaError := "" }
  | some (p, ln, d) => compileErrorOf readLines absPath p ln d

/-! ## The build retry loop (Build, build.go 85-122)

Each iteration runs the toolchain once; the environment supplies the
outcome of that invocation and, when a fetch is issued, the outcome of
the go-get call. gotten is the set of packages already fetched. The loop
returns the final state (none when the outcome stream runs out before
the loop finishes), the number of build invocations performed and the
list of packages for which a fetch was issued, in order. -/

/-- Does the pattern (first argument) begin the character list. -/
def listStartsWith : List Char → List Char → Bool
  | [], _ => true
  | _ :: _, [] => false
  | p :: ps, c :: cs => if p = c then listStartsWith ps cs else false

/-- One attempt of importErrorPattern at this position. -/
def importErrAt (cs : List Char) : Option String :=
  if listStartsWith ("import \"".data) cs then
    let rest := cs.drop 8
    let q := rest.takeWhile (fun c => !(c == '"'))
    let r2 := rest.dropWhile (fun c => !(c == '"'))
    if q.isEmpty then none
    else if listStartsWith ("\": cannot find package".data) r2 then some q.asString
    else none
  else none

/-- Leftmost match of importErrorPattern, returning the quoted package. -/
def findImportError : List Char → Option String
  | [] => importErrAt []
  | c :: rest =>
    match importErrAt (c :: rest) with
    | some q => some q
    | none => findImportError rest

/-- Outcome of one toolchain invocation: clean build, or failure with the
captured combined output plus, if a fetch were issued this iteration, the
go-get outcome (none means the fetch succeeds; some g means it fails with
output g, which build.go only logs). -/
inductive StepResult where
  | ok : StepResult
  | fail (output : String) (fetchErr : Option String) : StepResult
  deriving DecidableEq, Repr

/-- Final state of the Build orchestrator. -/
inductive BuildResult where
  | built : BuildResult
  | failed (err : RevelError) : BuildResult
  deriving DecidableEq, Repr

/-- The missing package recognized in one outcome's output, if any. -/
def stepMissing : StepResult → Option String
  | StepResult.ok => none
  | StepResult.fail out _ => findImportError out.data

/-- All missing packages recognized across an outcome sequence. -/
def missingList (steps : List StepResult) : List String :=
  steps.filterMap stepMissing

/-- The retry loop of Build: returns (final state, build invocations,
fetched packages). -/
def buildLoop (rl : String → Except String (List String)) (ap : String → String) :
    List String → List StepResult → Option BuildResult × Nat × List String
  | _, [] => (none, 0, [])
  | gotten, step :: rest =>
    match step with
    | StepResult.ok => (some BuildResult.built, 1, [])
    | StepResult.fail output fetchErr =>
      match findImportError output.data with
      | none => (some (BuildResult.failed (newCompileError rl ap output)), 1, [])
      | some pkg =>
        if pkg ∈ gotten then
          (some (BuildResult.failed (newCompileError rl ap output)), 1, [])
        else
          match fetchErr with
          | some _ => (some (BuildResult.failed (newCompileError rl ap output)), 1, [pkg])
          | none =>
            let r := buildLoop rl ap (pkg :: gotten) rest
            (r.1, r.2.1 + 1, pkg :: r.2.2)

/-! ## The Prepare step (Build, build.go 44-63)

Each OS operation's outcome is a parameter (none means success). A
RemoveAll failure is only logged (ERROR.Println); Mkdir, Create and
WriteString failures terminate via ERROR.Fatalf, recorded in fatalMsg. -/

/-- Result of the Prepare step: the fatal message, if the attempt was
aborted, and what was logged. -/
structure PrepareOutcome where
  fatalMsg : Option String
  log : List String
  deriving DecidableEq, Repr

/-- The Prepare step: remove the scratch dir, recreate it, create and
write main.go. -/
def prepare (removeErr mkdirErr createErr writeErr : Option String) : PrepareOutcome :=
  let log0 : List String :=
    match removeErr with
    | some e => ["Failed to remove tmp dir: " ++ e]
    | none => []
  match mkdirErr with
  | some e => { fatalMsg := some ("Failed to make tmp directory: " ++ e), log := log0 }
  | none =>
    match createErr with
    | some e => { fatalMsg := some ("Failed to create main.go: " ++ e), log := log0 }
    | none =>
      match writeErr with
      | some e => { fatalMsg := some ("Failed to write to main.go: " ++ e), log := log0 }
      | none => { fatalMsg := none, log := log0 }

/-! ## The db.import configuration step (Build, build.go 30-33) -/

/-- Build's pre-step: append the db.import config value, when present, to
InitImportPaths before alias computation. -/
def addDbImport (config : String → Option String) (src : SourceInfo) : SourceInfo :=
  match config "db.import" with
  | some p => { src with InitImportPaths := src.InitImportPaths ++ [p] }
  | none => src

/-- The import paths of the generated program: the keys of the alias
table (the template ranges over the table). -/
def importKeys (m : AliasMap) : List String := m.map Prod.fst

theorem digitChar_toNat {m : Nat} (h : m < 10) : (Nat.digitChar m).toNat = 48 + m := by
  interval_cases m <;> rfl

theorem toDigitsCore_append (fuel : Nat) :
    ∀ (n : Nat) (ds : List Char),
      Nat.toDigitsCore 10 fuel n ds = Nat.toDigitsCore 10 fuel n [] ++ ds := by
  induction fuel with
  | zero => intro n ds; rfl
  | succ f ih =>
    intro n ds
    simp only [Nat.toDigitsCore]
    by_cases h : n / 10 = 0
    · simp [h]
    · simp only [h, if_false]
      rw [ih (n / 10) (Nat.digitChar (n % 10) :: ds),
          ih (n / 10) [Nat.digitChar (n % 10)]]
      simp

theorem parseDec_append_digit (l : List Char) (c : Char) :
    parseDec (l ++ [c]) = parseDec l * 10 + (c.toNat - 48) := by
  simp [parseDec, List.foldl_append]

theorem parseDec_toDigitsCore (fuel : Nat) :
    ∀ n : Nat, n < 10 ^ fuel → parseDec (Nat.toDigitsCore 10 fuel n []) = n := by
  induction fuel with
  | zero =>
    intro n hn
    simp only [pow_zero, Nat.lt_one_iff] at hn
    subst hn; rfl
  | succ f ih =>
    intro n hn
    simp only [Nat.toDigitsCore]
    by_cases h : n / 10 = 0
    · have hlt : n < 10 := by
        rcases Nat.lt_or_ge n 10 with h10 | h10
        · exact h10
        · have h1 : 1 ≤ n / 10 := (Nat.le_div_iff_mul_le (by norm_num)).2 (by omega)
          omega
      have hmod : n % 10 = n := Nat.mod_eq_of_lt hlt
      simp only [h, if_true, hmod]
      show parseDec [Nat.digitChar n] = n
      have : parseDec [Nat.digitChar n] = (Nat.digitChar n).toNat - 48 := by
        simp [parseDec]
      rw [this, digitChar_toNat hlt]
      omega
    · simp only [h, if_false]
      rw [toDigitsCore_append, parseDec_append_digit]
      have hdiv : n / 10 < 10 ^ f := by
        rw [Nat.div_lt_iff_lt_mul (by norm_num : (0:Nat) < 10)]
        calc n < 10 ^ (f + 1) := hn
          _ = 10 ^ f * 10 := by ring
      rw [ih (n / 10) hdiv]
      have hm : n % 10 < 10 := Nat.mod_lt _ (by norm_num)
      rw [digitChar_toNat hm]
      omega

theorem parseDec_toDigits (n : Nat) : parseDec (Nat.toDigits 10 n) = n := by
  have h : n < 10 ^ (n + 1) := by
    calc n < 2 ^ n := Nat.lt_two_pow n
      _ ≤ 10 ^ n := Nat.pow_le_pow_left (by norm_num) n
      _ ≤ 10 ^ (n + 1) := Nat.pow_le_pow_right (by norm_num) (Nat.le_succ n)
  exact parseDec_toDigitsCore (n + 1) n h

theorem natRepr_injective : Function.Injective Nat.repr := by
  intro a b hab
  have hdata : (Nat.toDigits 10 a) = (Nat.toDigits 10 b) := by
    have := congrArg String.data hab
    simpa [Nat.repr, List.asString] using this
  have := congrArg parseDec hdata
  rwa [parseDec_toDigits, parseDec_toDigits] at this

/-- Candidates pkgName ++ Nat.repr i are pairwise distinct. -/
theorem append_repr_injective (pkg : String) :
    Function.Injective (fun i => pkg ++ Nat.repr i) := by
  intro a b hab
  simp only at hab
  have hdata := congrArg String.data hab
  rw [String.data_append, String.data_append] at hdata
  have := List.append_cancel_left hdata
  exact natRepr_injective (String.ext this)

/-! ### Freshness of makePackageAlias -/

theorem containsValue_iff {m : AliasMap} {v : String} :
    containsValue m v = true ↔ ∃ p ∈ m, p.2 = v := by
  simp [containsValue, List.any_eq_true, beq_iff_eq]

theorem containsValue_false_iff {m : AliasMap} {v : String} :
    containsValue m v = false ↔ ∀ p ∈ m, p.2 ≠ v := by
  rw [← Bool.not_eq_true, containsValue_iff]
  push_neg
  rfl

theorem mget_mem {m : AliasMap} {k v : String} (h : mget m k = some v) : (k, v) ∈ m := by
  induction m with
  | nil => simp [mget] at h
  | cons p t ih =>
    obtain ⟨k', v'⟩ := p
    by_cases hk : k' = k
    · subst hk
      simp [mget] at h
      subst h
      exact List.mem_cons_self _ _
    · simp [mget, hk] at h
      exact List.mem_cons_of_mem _ (ih h)

theorem containsValue_of_mget {m : AliasMap} {k v : String} (h : mget m k = some v) :
    containsValue m v = true :=
  containsValue_iff.2 ⟨(k, v), mget_mem h, rfl⟩

theorem exists_fresh_suffix (m : AliasMap) (pkg : String) :
    ∃ j, j ≤ m.length ∧ containsValue m (pkg ++ Nat.repr j) = false := by
  by_contra hc
  push_neg at hc
  have hall : ∀ j, j ≤ m.length → containsValue m (pkg ++ Nat.repr j) = true := by
    intro j hj
    have := hc j hj
    revert this
    cases containsValue m (pkg ++ Nat.repr j) <;> simp
  set L := (List.range (m.length + 1)).map (fun j => pkg ++ Nat.repr j) with hL
  have hnodup : L.Nodup :=
    (List.nodup_range _).map (append_repr_injective pkg)
  have hsub : L ⊆ m.map Prod.snd := by
    intro x hx
    rw [hL, List.mem_map] at hx
    obtain ⟨j, hj, rfl⟩ := hx
    rw [List.mem_range] at hj
    obtain ⟨p, hp, hpv⟩ := containsValue_iff.1 (hall j (by omega))
    rw [List.mem_map]
    exact ⟨p, hp, hpv⟩
  have hlen : L.length ≤ (m.map Prod.snd).length :=
    (List.subperm_of_subset hnodup hsub).length_le
  simp [hL] at hlen

theorem makeAliasLoop_of_free {m : AliasMap} {pkg al : String} {i fuel : Nat}
    (h : containsValue m al = false) : makeAliasLoop m pkg al i fuel = al := by
  cases fuel <;> simp [makeAliasLoop, h]

theorem makeAliasLoop_fresh (m : AliasMap) (pkg : String) :
    ∀ (fuel i : Nat) (al : String),
      (containsValue m al = false ∨
        ∃ j, i ≤ j ∧ j < i + fuel ∧ containsValue m (pkg ++ Nat.repr j) = false) →
      containsValue m (makeAliasLoop m pkg al i fuel) = false := by
  intro fuel
  induction fuel with
  | zero =>
    intro i al h
    rcases h with h | ⟨j, hij, hlt, _⟩
    · simpa [makeAliasLoop] using h
    · omega
  | succ f ih =>
    intro i al h
    by_cases hc : containsValue m al = true
    · simp only [makeAliasLoop, hc, if_true]
      rcases h with h | ⟨j, hij, hlt, hfree⟩
      · rw [hc] at h; exact absurd h (by simp)
      · rcases Nat.eq_or_lt_of_le hij with heq | hgt
        · subst heq
          exact ih (i+1) _ (Or.inl hfree)
        · exact ih (i+1) _ (Or.inr ⟨j, hgt, by omega, hfree⟩)
    · have hc' : containsValue m al = false := by
        revert hc; cases containsValue m al <;> simp
      rw [makeAliasLoop_of_free hc']
      exact hc'

theorem makePackageAlias_fresh (m : AliasMap) (pkg : String) :
    containsValue m (makePackageAlias m pkg) = false := by
  obtain ⟨j, hj, hfree⟩ := exists_fresh_suffix m pkg
  exact makeAliasLoop_fresh m pkg (m.length + 2) 0 pkg
    (Or.inr ⟨j, Nat.zero_le j, by omega, hfree⟩)

/-! ### Least-suffix characterization of makePackageAlias -/

theorem makeAliasLoop_least (m : AliasMap) (pkg : String) :
    ∀ (fuel i : Nat) (al : String),
      containsValue m al = true →
      (∃ j, i ≤ j ∧ j < i + fuel ∧ containsValue m (pkg ++ Nat.repr j) = false) →
      (∀ k, k < i → containsValue m (pkg ++ Nat.repr k) = true) →
      ∃ j, makeAliasLoop m pkg al i fuel = pkg ++ Nat.repr j ∧
        containsValue m (pkg ++ Nat.repr j) = false ∧
        ∀ k, k < j → containsValue m (pkg ++ Nat.repr k) = true := by
  intro fuel
  induction fuel with
  | zero =>
    intro i al _ hex _
    obtain ⟨j, hij, hlt, _⟩ := hex
    omega
  | succ f ih =>
    intro i al hc hex hbelow
    simp only [makeAliasLoop, hc, if_true]
    by_cases hci : containsValue m (pkg ++ Nat.repr i) = true
    · obtain ⟨j, hij, hlt, hfree⟩ := hex
      have hne : j ≠ i := by
        intro h
        rw [h, hci] at hfree
        exact absurd hfree (by simp)
      refine ih (i+1) _ hci ⟨j, by omega, by omega, hfree⟩ ?_
      intro k hk
      rcases Nat.lt_or_ge k i with hk' | hk'
      · exact hbelow k hk'
      · have : k = i := by omega
        rw [this]; exact hci
    · have hci' : containsValue m (pkg ++ Nat.repr i) = false := by
        revert hci; cases containsValue m (pkg ++ Nat.repr i) <;> simp
      rw [makeAliasLoop_of_free hci']
      exact ⟨i, rfl, hci', hbelow⟩

theorem makePackageAlias_of_free {m : AliasMap} {pkg : String}
    (h : containsValue m pkg = false) : makePackageAlias m pkg = pkg :=
  makeAliasLoop_of_free h

theorem makePackageAlias_of_taken {m : AliasMap} {pkg : String}
    (h : containsValue m pkg = true) :
    ∃ j, makePackageAlias m pkg = pkg ++ Nat.repr j ∧
      containsValue m (pkg ++ Nat.repr j) = false ∧
      ∀ k, k < j → containsValue m (pkg ++ Nat.repr k) = true := by
  obtain ⟨j, hj, hfree⟩ := exists_fresh_suffix m pkg
  exact makeAliasLoop_least m pkg (m.length + 2) 0 pkg h
    ⟨j, Nat.zero_le j, by omega, hfree⟩ (fun k hk => absurd hk (Nat.not_lt_zero k))

theorem mget_mset_of_some {m : AliasMap} {k' w : String} (k v : String)
    (h : mget m k' = some w) : mget (mset m k v) k' = some w := by
  induction m with
  | nil => simp [mget] at h
  | cons p t ih =>
    obtain ⟨k0, v0⟩ := p
    by_cases hk : k0 = k'
    · subst hk
      simp [mget] at h
      simp [mget, mset, h]
    · simp [mget, hk] at h
      simpa [mget, mset, hk] using ih h

theorem mget_mset_of_none {m : AliasMap} {k' : String} (k v : String)
    (h : mget m k' = none) :
    mget (mset m k v) k' = if k = k' then some v else none := by
  induction m with
  | nil => simp [mget, mset]
  | cons p t ih =>
    obtain ⟨k0, v0⟩ := p
    by_cases hk : k0 = k'
    · subst hk
      simp [mget] at h
    · simp [mget, hk] at h
      simpa [mget, mset, hk] using ih h

theorem goodMap_mset_fresh {m : AliasMap} {k v : String} (hg : GoodMap m)
    (hk : mget m k = none) (hv : containsValue m v = false) :
    GoodMap (mset m k v) := by
  intro k1 k2 w h1 h2 hw
  rcases hm1 : mget m k1 with _ | w1 <;> rcases hm2 : mget m k2 with _ | w2
  · rw [mget_mset_of_none k v hm1] at h1
    rw [mget_mset_of_none k v hm2] at h2
    by_cases e1 : k = k1
    · by_cases e2 : k = k2
      · rw [← e1, ← e2]
      · simp [e2] at h2
    · simp [e1] at h1
  · rw [mget_mset_of_none k v hm1] at h1
    rw [mget_mset_of_some k v hm2] at h2
    by_cases e1 : k = k1
    · simp [e1] at h1
      have hcv : containsValue m w2 = true := containsValue_of_mget hm2
      have hw2 : w2 = w := Option.some.inj h2
      rw [hw2, ← h1] at hcv
      rw [hcv] at hv
      exact absurd hv (by simp)
    · simp [e1] at h1
  · rw [mget_mset_of_some k v hm1] at h1
    rw [mget_mset_of_none k v hm2] at h2
    by_cases e2 : k = k2
    · simp [e2] at h2
      have hcv : containsValue m w1 = true := containsValue_of_mget hm1
      have hw1 : w1 = w := Option.some.inj h1
      rw [hw1, ← h2] at hcv
      rw [hcv] at hv
      exact absurd hv (by simp)
    · simp [e2] at h2
  · rw [mget_mset_of_some k v hm1] at h1
    rw [mget_mset_of_some k v hm2] at h2
    rw [h1] at hm1
    rw [h2] at hm2
    exact hg k1 k2 w hm1 hm2 hw

theorem goodMap_addAlias {m : AliasMap} (hg : GoodMap m) (p n : String) :
    GoodMap (addAlias m p n) := by
  unfold addAlias
  rcases hm : mget m p with _ | w
  · exact goodMap_mset_fresh hg hm (makePackageAlias_fresh m n)
  · exact hg

theorem goodMap_foldl {α : Type} (f : AliasMap → α → AliasMap)
    (hf : ∀ (m : AliasMap) (a : α), GoodMap m → GoodMap (f m a)) :
    ∀ (l : List α) (m : AliasMap), GoodMap m → GoodMap (l.foldl f m) := by
  intro l
  induction l with
  | nil => intro m hm; exact hm
  | cons a t ih => intro m hm; exact ih (f m a) (hf m a hm)

theorem goodMap_addArgAlias {m : AliasMap} (hg : GoodMap m) (arg : MethodArg) :
    GoodMap (addArgAlias m arg) := by
  unfold addArgAlias
  by_cases h : arg.ImportPath = "" <;> simp [h]
  · exact hg
  · exact goodMap_addAlias hg _ _

theorem goodMap_addMethodAliases {m : AliasMap} (hg : GoodMap m) (ms : MethodSpec) :
    GoodMap (addMethodAliases m ms) :=
  goodMap_foldl addArgAlias (fun m' a hm' => goodMap_addArgAlias hm' a) ms.Args m hg

theorem goodMap_addSpecAliases {m : AliasMap} (hg : GoodMap m) (spec : TypeInfo) :
    GoodMap (addSpecAliases m spec) :=
  goodMap_foldl addMethodAliases (fun m' a hm' => goodMap_addMethodAliases hm' a)
    spec.MethodSpecs _ (goodMap_addAlias hg _ _)

theorem goodMap_nil : GoodMap ([] : AliasMap) := by
  intro k1 k2 v h1 _ _
  simp [mget] at h1

theorem goodMap_specAliases (src : SourceInfo) : GoodMap (specAliases src) :=
  goodMap_foldl addSpecAliases (fun m' a hm' => goodMap_addSpecAliases hm' a)
    _ [] goodMap_nil

theorem goodMap_addInitAliases {m : AliasMap} (hg : GoodMap m) (paths : List String) :
    GoodMap (addInitAliases m paths) := by
  refine goodMap_foldl _ ?_ paths m hg
  intro m' p hm'
  rcases hmp : mget m' p with _ | w
  · simp only [hmp]
    intro k1 k2 v h1 h2 hv
    rcases hk1 : mget m' k1 with _ | w1 <;> rcases hk2 : mget m' k2 with _ | w2
    · rw [mget_mset_of_none p "_" hk1] at h1
      by_cases e1 : p = k1
      · simp [e1] at h1
        exact absurd h1.symm hv
      · simp [e1] at h1
    · rw [mget_mset_of_none p "_" hk1] at h1
      by_cases e1 : p = k1
      · simp [e1] at h1
        exact absurd h1.symm hv
      · simp [e1] at h1
    · rw [mget_mset_of_none p "_" hk2] at h2
      by_cases e2 : p = k2
      · simp [e2] at h2
        exact absurd h2.symm hv
      · simp [e2] at h2
    · rw [mget_mset_of_some p "_" hk1] at h1
      rw [mget_mset_of_some p "_" hk2] at h2
      rw [h1] at hk1
      rw [h2] at hk2
      exact hm' k1 k2 v hk1 hk2 hv
  · simpa [hmp] using hm'

theorem goodMap_calcImportAliases (src : SourceInfo) :
    GoodMap (calcImportAliases src) :=
  goodMap_addInitAliases (goodMap_specAliases src) src.InitImportPaths

/-! ### Coverage: referenced import paths appear as keys -/

theorem isSome_mset {m : AliasMap} {k' : String} (k v : String)
    (h : (mget m k').isSome = true) : (mget (mset m k v) k').isSome = true := by
  rcases hm : mget m k' with _ | w
  · rw [hm] at h; simp at h
  · rw [mget_mset_of_some k v hm]; rfl

theorem isSome_addAlias {m : AliasMap} {k' : String} (p n : String)
    (h : (mget m k').isSome = true) : (mget (addAlias m p n) k').isSome = true := by
  unfold addAlias
  rcases hm : mget m p with _ | w
  · exact isSome_mset p _ h
  · exact h

theorem isSome_addAlias_self (m : AliasMap) (p n : String) :
    (mget (addAlias m p n) p).isSome = true := by
  unfold addAlias
  rcases hm : mget m p with _ | w
  · rw [mget_mset_of_none p _ hm]
    simp
  · rw [hm]; rfl

theorem isSome_foldl {α : Type} (f : AliasMap → α → AliasMap) (k : String)
    (hf : ∀ (m : AliasMap) (a : α),
      (mget m k).isSome = true → (mget (f m a) k).isSome = true) :
    ∀ (l : List α) (m : AliasMap),
      (mget m k).isSome = true → (mget (l.foldl f m) k).isSome = true := by
  intro l
  induction l with
  | nil => intro m hm; exact hm
  | cons a t ih => intro m hm; exact ih (f m a) (hf m a hm)

theorem isSome_addArgAlias {m : AliasMap} {k : String} (arg : MethodArg)
    (h : (mget m k).isSome = true) : (mget (addArgAlias m arg) k).isSome = true := by
  unfold addArgAlias
  by_cases he : arg.ImportPath = "" <;> simp [he]
  · exact h
  · exact isSome_addAlias _ _ h

theorem isSome_addMethodAliases {m : AliasMap} {k : String} (ms : MethodSpec)
    (h : (mget m k).isSome = true) : (mget (addMethodAliases m ms) k).isSome = true :=
  isSome_foldl addArgAlias k (fun m' a h' => isSome_addArgAlias a h') ms.Args m h

theorem isSome_addSpecAliases {m : AliasMap} {k : String} (spec : TypeInfo)
    (h : (mget m k).isSome = true) : (mget (addSpecAliases m spec) k).isSome = true :=
  isSome_foldl addMethodAliases k (fun m' a h' => isSome_addMethodAliases a h')
    spec.MethodSpecs _ (isSome_addAlias _ _ h)

theorem isSome_addInitAliases {m : AliasMap} {k : String} (paths : List String)
    (h : (mget m k).isSome = true) : (mget (addInitAliases m paths) k).isSome = true := by
  refine isSome_foldl _ k ?_ paths m h
  intro m' p h'
  rcases hmp : mget m' p with _ | w
  · simp only [hmp]
    exact isSome_mset p _ h'
  · simpa [hmp] using h'

theorem argsCovered (args : List MethodArg) :
    ∀ (m : AliasMap) (arg : MethodArg), arg ∈ args → arg.ImportPath ≠ "" →
      (mget (args.foldl addArgAlias m) arg.ImportPath).isSome = true := by
  induction args with
  | nil => intro m arg h; exact absurd h (List.not_mem_nil arg)
  | cons a t ih =>
    intro m arg hmem hne
    rcases List.mem_cons.1 hmem with rfl | hmem'
    · simp only [List.foldl_cons]
      refine isSome_foldl addArgAlias _ (fun m' x h' => isSome_addArgAlias x h') t _ ?_
      unfold addArgAlias
      simp [hne]
      exact isSome_addAlias_self _ _ _
    · exact ih (addArgAlias m a) arg hmem' hne

theorem methodsCovered (mss : List MethodSpec) :
    ∀ (m : AliasMap) (ms : MethodSpec) (arg : MethodArg), ms ∈ mss → arg ∈ ms.Args →
      arg.ImportPath ≠ "" →
      (mget (mss.foldl addMethodAliases m) arg.ImportPath).isSome = true := by
  induction mss with
  | nil => intro m ms arg h; exact absurd h (List.not_mem_nil ms)
  | cons a t ih =>
    intro m ms arg hmem harg hne
    rcases List.mem_cons.1 hmem with rfl | hmem'
    · simp only [List.foldl_cons]
      refine isSome_foldl addMethodAliases _
        (fun m' x h' => isSome_addMethodAliases x h') t _ ?_
      exact argsCovered ms.Args m arg harg hne
    · exact ih (addMethodAliases m a) ms arg hmem' harg hne

theorem specsCovered (specs : List TypeInfo) :
    ∀ (m : AliasMap) (t : TypeInfo), t ∈ specs →
      (mget (specs.foldl addSpecAliases m) t.ImportPath).isSome = true ∧
      (∀ ms, ms ∈ t.MethodSpecs → ∀ arg, arg ∈ ms.Args → arg.ImportPath ≠ "" →
        (mget (specs.foldl addSpecAliases m) arg.ImportPath).isSome = true) := by
  induction specs with
  | nil => intro m t h; exact absurd h (List.not_mem_nil t)
  | cons a rest ih =>
    intro m t hmem
    rcases List.mem_cons.1 hmem with rfl | hmem'
    · constructor
      · simp only [List.foldl_cons]
        refine isSome_foldl addSpecAliases _
          (fun m' x h' => isSome_addSpecAliases x h') rest _ ?_
        unfold addSpecAliases
        refine isSome_foldl addMethodAliases _
          (fun m' x h' => isSome_addMethodAliases x h') t.MethodSpecs _ ?_
        exact isSome_addAlias_self _ _ _
      · intro ms hms arg harg hne
        simp only [List.foldl_cons]
        refine isSome_foldl addSpecAliases _
          (fun m' x h' => isSome_addSpecAliases x h') rest _ ?_
        unfold addSpecAliases
        exact methodsCovered t.MethodSpecs _ ms arg hms harg hne
    · exact ih (addSpecAliases m a) t hmem'

theorem string_ne_append {s t : String} (h : t ≠ "") : s ≠ s ++ t := by
  intro he
  have hd := congrArg String.data he
  rw [String.data_append] at hd
  have hnil : t.data = [] := by
    have hlen := congrArg List.length hd
    rw [List.length_append] at hlen
    exact List.length_eq_zero.1 (by omega)
  exact h (String.ext (by simp [hnil]))

/-- C1 counterexample: with two InitImportPaths and nothing else, the
alias table maps two different import paths to the same alias, the
discard alias. -/
theorem calcImportAliases_unique_cex :
    mget (calcImportAliases ⟨[], [], ["a", "b"]⟩) "a" = some "_" ∧
    mget (calcImportAliases ⟨[], [], ["a", "b"]⟩) "b" = some "_" ∧
    ("a" : String) ≠ "b" := by
  refine ⟨?_, ?_, by decide⟩ <;> rfl

/-- C1 (amended): the alias table produced by calcImportAliases never maps
two different import paths to the same alias, except that the discard
alias may be shared; and every import path referenced by any TypeInfo of
ControllerSpecs or TestSuites, or by any MethodArg with a non-empty
ImportPath, appears as a key of the table. -/
theorem calcImportAliases_unique_and_covers (src : SourceInfo) :
    (∀ k1 k2 v, mget (calcImportAliases src) k1 = some v →
      mget (calcImportAliases src) k2 = some v → v ≠ "_" → k1 = k2) ∧
    (∀ t, t ∈ src.ControllerSpecs ++ src.TestSuites →
      (mget (calcImportAliases src) t.ImportPath).isSome = true ∧
      (∀ ms, ms ∈ t.MethodSpecs → ∀ arg, arg ∈ ms.Args → arg.ImportPath ≠ "" →
        (mget (calcImportAliases src) arg.ImportPath).isSome = true)) := by
  constructor
  · exact goodMap_calcImportAliases src
  · intro t ht
    have hcov := specsCovered (src.ControllerSpecs ++ src.TestSuites) [] t ht
    constructor
    · exact isSome_addInitAliases src.InitImportPaths hcov.1
    · intro ms hms arg harg hne
      exact isSome_addInitAliases src.InitImportPaths (hcov.2 ms hms arg harg hne)

/-- Evaluates calcImportAliases at a concrete SourceInfo and applies the
uniqueness and coverage theorem there, discharging all its hypotheses. -/
theorem calcImportAliases_unique_and_covers_witness :
    (mget (calcImportAliases ⟨[⟨"App", "x/ctl", "ctl", [⟨"Index", [⟨"id", "y/pkg", ⟨"pkg"⟩⟩]⟩]⟩], [], []⟩) "x/ctl" = some "ctl") ∧
    ("ctl" : String) ≠ "_" ∧
    ("x/ctl" : String) = "x/ctl" ∧
    (⟨"App", "x/ctl", "ctl", [⟨"Index", [⟨"id", "y/pkg", ⟨"pkg"⟩⟩]⟩]⟩ : TypeInfo) ∈
      ([⟨"App", "x/ctl", "ctl", [⟨"Index", [⟨"id", "y/pkg", ⟨"pkg"⟩⟩]⟩]⟩] : List TypeInfo) ++ [] ∧
    (mget (calcImportAliases ⟨[⟨"App", "x/ctl", "ctl", [⟨"Index", [⟨"id", "y/pkg", ⟨"pkg"⟩⟩]⟩]⟩], [], []⟩) "y/pkg").isSome = true := by
  refine ⟨by decide, by decide, ?_, by decide, ?_⟩
  · exact (calcImportAliases_unique_and_covers
      ⟨[⟨"App", "x/ctl", "ctl", [⟨"Index", [⟨"id", "y/pkg", ⟨"pkg"⟩⟩]⟩]⟩], [], []⟩).1
      "x/ctl" "x/ctl" "ctl" (by decide) (by decide) (by decide)
  · exact ((calcImportAliases_unique_and_covers
      ⟨[⟨"App", "x/ctl", "ctl", [⟨"Index", [⟨"id", "y/pkg", ⟨"pkg"⟩⟩]⟩]⟩], [], []⟩).2
      ⟨"App", "x/ctl", "ctl", [⟨"Index", [⟨"id", "y/pkg", ⟨"pkg"⟩⟩]⟩]⟩ (by decide)).2
      ⟨"Index", [⟨"id", "y/pkg", ⟨"pkg"⟩⟩]⟩ (by decide) ⟨"id", "y/pkg", ⟨"pkg"⟩⟩
      (by decide) (by decide)

/-- C5: two TypeInfos with the same declared package name but with
different import paths get distinct aliases: the first processed gets
the bare package name and the second gets the name suffixed with 0; in
general a colliding package name receives the first unused numeric
suffix counted from 0. -/
theorem samePackage_distinct_aliases :
    (∀ (s1 s2 p1 p2 pn : String), p1 ≠ p2 →
      mget (calcImportAliases ⟨[⟨s1, p1, pn, []⟩, ⟨s2, p2, pn, []⟩], [], []⟩) p1
          = some pn ∧
      mget (calcImportAliases ⟨[⟨s1, p1, pn, []⟩, ⟨s2, p2, pn, []⟩], [], []⟩) p2
          = some (pn ++ "0")) ∧
    (∀ (m : AliasMap) (pn : String), containsValue m pn = true →
      ∃ j, makePackageAlias m pn = pn ++ Nat.repr j ∧
        containsValue m (pn ++ Nat.repr j) = false ∧
        ∀ k, k < j → containsValue m (pn ++ Nat.repr k) = true) := by
  constructor
  · intro s1 s2 p1 p2 pn hne
    have hm1 : specAliases ⟨[⟨s1, p1, pn, []⟩, ⟨s2, p2, pn, []⟩], [], []⟩
        = [(p1, pn), (p2, pn ++ "0")] := by
      show addSpecAliases (addSpecAliases [] ⟨s1, p1, pn, []⟩) ⟨s2, p2, pn, []⟩ = _
      have h1 : addSpecAliases [] ⟨s1, p1, pn, []⟩ = [(p1, pn)] := by
        show addAlias [] p1 pn = _
        unfold addAlias mget
        simp only []
        show mset [] p1 (makePackageAlias [] pn) = _
        unfold makePackageAlias makeAliasLoop containsValue
        simp [mset]
      rw [h1]
      show addAlias [(p1, pn)] p2 pn = _
      have hget : mget [(p1, pn)] p2 = none := by
        unfold mget mget
        simp [hne]
      have hcv : containsValue [(p1, pn)] pn = true := by
        simp [containsValue]
      have hcv0 : containsValue [(p1, pn)] (pn ++ "0") = false := by
        simp only [containsValue, List.any_cons, List.any_nil, Bool.or_false]
        rw [beq_eq_false_iff_ne]
        exact string_ne_append (by decide)
      unfold addAlias
      rw [hget]
      have hmp : makePackageAlias [(p1, pn)] pn = pn ++ "0" := by
        show makeAliasLoop [(p1, pn)] pn pn 0 3 = pn ++ "0"
        unfold makeAliasLoop
        rw [if_pos hcv]
        rw [show (Nat.repr 0 : String) = "0" from rfl]
        exact makeAliasLoop_of_free hcv0
      rw [hmp]
      rfl
    have hfin : calcImportAliases ⟨[⟨s1, p1, pn, []⟩, ⟨s2, p2, pn, []⟩], [], []⟩
        = [(p1, pn), (p2, pn ++ "0")] := by
      show addInitAliases (specAliases _) [] = _
      rw [hm1]
      rfl
    rw [hfin]
    constructor
    · simp [mget]
    · simp [mget, hne]
  · intro m pn h
    exact makePackageAlias_of_taken h

/-- Evaluates the distinct-alias theorem on concrete controllers and a
concrete occupied alias table, discharging the hypotheses. -/
theorem samePackage_distinct_aliases_witness :
    (("x/a" : String) ≠ "y/a" ∧
      mget (calcImportAliases ⟨[⟨"A", "x/a", "a", []⟩, ⟨"B", "y/a", "a", []⟩], [], []⟩) "x/a"
          = some "a" ∧
      mget (calcImportAliases ⟨[⟨"A", "x/a", "a", []⟩, ⟨"B", "y/a", "a", []⟩], [], []⟩) "y/a"
          = some ("a" ++ "0")) ∧
    (containsValue [("q", "a")] "a" = true ∧
      ∃ j, makePackageAlias [("q", "a")] "a" = "a" ++ Nat.repr j ∧
        containsValue [("q", "a")] ("a" ++ Nat.repr j) = false ∧
        ∀ k, k < j → containsValue [("q", "a")] ("a" ++ Nat.repr k) = true) := by
  constructor
  · refine ⟨by decide, ?_⟩
    exact samePackage_distinct_aliases.1 "A" "B" "x/a" "y/a" "a" (by decide)
  · refine ⟨by decide, ?_⟩
    exact samePackage_distinct_aliases.2 [("q", "a")] "a" (by decide)

theorem nce_eq_of_findDiag_some (rl : String → Except String (List String))
    (ap : String → String) {output p : String} {ln : Nat} {d : String}
    (h : findDiag output.data = some (p, ln, d)) :
    newCompileError rl ap output = compileErrorOf rl ap p ln d := by
  unfold newCompileError
  rw [h]

theorem nce_eq_of_findDiag_none (rl : String → Except String (List String))
    (ap : String → String) {output : String}
    (h : findDiag output.data = none) :
    newCompileError rl ap output =
      { SourceType := "Go code", Title := "Go Compilation Error",
        Description := "See console for build error.", Path := "", Line := 0,
        SourceLines := [], MetaError := "" } := by
  unfold newCompileError
  rw [h]

theorem compileErrorOf_Path (rl : String → Except String (List String))
    (ap : String → String) (p : String) (ln : Nat) (d : String) :
    (compileErrorOf rl ap p ln d).Path = p := by
  unfold compileErrorOf
  cases rl (ap p) <;> rfl

theorem compileErrorOf_Line (rl : String → Except String (List String))
    (ap : String → String) (p : String) (ln : Nat) (d : String) :
    (compileErrorOf rl ap p ln d).Line = ln := by
  unfold compileErrorOf
  cases rl (ap p) <;> rfl

theorem compileErrorOf_Description (rl : String → Except String (List String))
    (ap : String → String) (p : String) (ln : Nat) (d : String) :
    (compileErrorOf rl ap p ln d).Description = d := by
  unfold compileErrorOf
  cases rl (ap p) <;> rfl

theorem matchAt_some_path {cs : List Char} {p : String} {ln : Nat} {d : String}
    (h : matchAt cs = some (p, ln, d)) :
    p ≠ "" ∧ ∀ c ∈ p.data, pathChar c = true := by
  unfold matchAt at h
  by_cases he : (cs.takeWhile pathChar).isEmpty
  · rw [if_pos he] at h
    simp at h
  · rw [if_neg he] at h
    rcases hm : matchRest (cs.dropWhile pathChar) with _ | t
    · rw [hm] at h
      simp at h
    · rw [hm] at h
      obtain ⟨ln', d'⟩ := t
      simp only [Option.some.injEq, Prod.mk.injEq] at h
      obtain ⟨hp, _, _⟩ := h
      have hdata : p.data = cs.takeWhile pathChar := by
        rw [← hp]
        rfl
      constructor
      · intro hp0
        rw [hp0] at hdata
        rcases hcs : cs.takeWhile pathChar with _ | ⟨a, rest⟩
        · rw [hcs] at he
          exact he rfl
        · rw [hcs] at hdata
          exact absurd hdata.symm (by simp)
      · intro c hc
        rw [hdata] at hc
        exact List.mem_takeWhile_imp hc

theorem findDiagAux_some {cs : List Char} {t : String × Nat × String}
    (h : findDiagAux cs = some t) : ∃ cs', matchAt cs' = some t := by
  induction cs with
  | nil => simp [findDiagAux] at h
  | cons c rest ih =>
    unfold findDiagAux at h
    by_cases hc : c = '\n'
    · rw [if_pos hc] at h
      rcases hm : matchAt rest with _ | t'
      · rw [hm] at h
        exact ih h
      · rw [hm] at h
        exact ⟨rest, hm.trans h⟩
    · rw [if_neg hc] at h
      exact ih h

theorem findDiag_some {cs : List Char} {t : String × Nat × String}
    (h : findDiag cs = some t) : ∃ cs', matchAt cs' = some t := by
  unfold findDiag at h
  rcases hm : matchAt cs with _ | t'
  · rw [hm] at h
    exact findDiagAux_some h
  · rw [hm] at h
    exact ⟨cs, hm.trans h⟩

/-- C3: on the output line controllers/app.go:42:10: undefined: Foo, the
parser produces Path controllers/app.go, Line 42 and Description
undefined: Foo, whatever the filesystem holds. -/
theorem newCompileError_example (rl : String → Except String (List String))
    (ap : String → String) :
    (newCompileError rl ap "controllers/app.go:42:10: undefined: Foo").Path
        = "controllers/app.go" ∧
    (newCompileError rl ap "controllers/app.go:42:10: undefined: Foo").Line = 42 ∧
    (newCompileError rl ap "controllers/app.go:42:10: undefined: Foo").Description
        = "undefined: Foo" := by
  rw [nce_eq_of_findDiag_some rl ap
    (show findDiag ("controllers/app.go:42:10: undefined: Foo".data)
        = some ("controllers/app.go", 42, "undefined: Foo") by decide)]
  exact ⟨compileErrorOf_Path rl ap _ _ _, compileErrorOf_Line rl ap _ _ _,
    compileErrorOf_Description rl ap _ _ _⟩

/-- C6 counterexample: on unmatched output the Description is the fixed
string "See console for build error.", not "see console output". -/
theorem newCompileError_generic_cex :
    findDiag ("some build noise".data) = none ∧
    (newCompileError (fun _ => Except.error "nofile") (fun s => s)
        "some build noise").Description ≠ "see console output" := by
  exact ⟨by decide, by decide⟩

/-- C6 (amended): on output with no line matching the diagnostic shape,
the parser returns the generic error with empty Path and the fixed
Description "See console for build error." that refers the user to the
console output. -/
theorem newCompileError_generic (rl : String → Except String (List String))
    (ap : String → String) (output : String) (h : findDiag output.data = none) :
    newCompileError rl ap output =
      { SourceType := "Go code", Title := "Go Compilation Error",
        Description := "See console for build error.", Path := "", Line := 0,
        SourceLines := [], MetaError := "" } :=
  nce_eq_of_findDiag_none rl ap h

/-- Applies the generic-error theorem on a concrete unmatched output. -/
theorem newCompileError_generic_witness :
    findDiag ("exit status 2".data) = none ∧
    newCompileError (fun _ => Except.error "nofile") (fun s => s) "exit status 2" =
      { SourceType := "Go code", Title := "Go Compilation Error",
        Description := "See console for build error.", Path := "", Line := 0,
        SourceLines := [], MetaError := "" } :=
  ⟨by decide,
    newCompileError_generic (fun _ => Except.error "nofile") (fun s => s)
      "exit status 2" (by decide)⟩

/-- C7: when the diagnostic matches but the referenced file cannot be
read, the error still carries Path, Line and Description from the
diagnostic, SourceLines stays empty and MetaError records the secondary
failure. -/
theorem newCompileError_read_failure (rl : String → Except String (List String))
    (ap : String → String) (output p : String) (ln : Nat) (d e : String)
    (hm : findDiag output.data = some (p, ln, d))
    (hr : rl (ap p) = Except.error e) :
    newCompileError rl ap output =
      { SourceType := "Go code", Title := "Go Compilation Error",
        Description := d, Path := p, Line := ln,
        SourceLines := [], MetaError := ap p ++ ": " ++ e } := by
  rw [nce_eq_of_findDiag_some rl ap hm]
  unfold compileErrorOf
  rw [hr]

/-- Applies the read-failure theorem at a concrete diagnostic and a
filesystem whose reads always fail. -/
theorem newCompileError_read_failure_witness :
    findDiag ("controllers/app.go:7:2: syntax error".data)
        = some ("controllers/app.go", 7, "syntax error") ∧
    ((fun _ : String => (Except.error "open failed" : Except String (List String)))
        ((fun s => "/abs/" ++ s) "controllers/app.go") = Except.error "open failed") ∧
    newCompileError (fun _ => Except.error "open failed") (fun s => "/abs/" ++ s)
        "controllers/app.go:7:2: syntax error" =
      { SourceType := "Go code", Title := "Go Compilation Error",
        Description := "syntax error", Path := "controllers/app.go", Line := 7,
        SourceLines := [], MetaError := "/abs/controllers/app.go: open failed" } := by
  refine ⟨by decide, by rfl, ?_⟩
  exact newCompileError_read_failure (fun _ => Except.error "open failed")
    (fun s => "/abs/" ++ s) "controllers/app.go:7:2: syntax error"
    "controllers/app.go" 7 "syntax error" "open failed" (by decide) (by rfl)

/-- C10: a localized error (non-empty Path) never has a colon or hash in
its path, and a position starting with hash never matches the pattern. -/
theorem localized_path_no_colon_hash :
    (∀ (rl : String → Except String (List String)) (ap : String → String)
      (output : String),
      (newCompileError rl ap output).Path ≠ "" →
      ∀ c ∈ (newCompileError rl ap output).Path.data, c ≠ ':' ∧ c ≠ '#') ∧
    (∀ cs : List Char, cs.head? = some '#' → matchAt cs = none) := by
  constructor
  · intro rl ap output hne c hc
    rcases hfd : findDiag output.data with _ | ⟨p, ln, d⟩
    · rw [nce_eq_of_findDiag_none rl ap hfd] at hne
      exact absurd rfl hne
    · rw [nce_eq_of_findDiag_some rl ap hfd, compileErrorOf_Path] at hc
      obtain ⟨cs', hm⟩ := findDiag_some hfd
      have hpc := (matchAt_some_path hm).2 c hc
      have : (!(c == ':') && !(c == '#')) = true := hpc
      constructor
      · intro h; rw [h] at this; simp at this
      · intro h; rw [h] at this; simp at this
  · intro cs hh
    rcases cs with _ | ⟨c, rest⟩
    · simp at hh
    · simp at hh
      unfold matchAt
      rw [hh]
      have : pathChar '#' = false := by decide
      simp [List.takeWhile, this]

/-- Applies the no-colon-no-hash theorem at a concrete localized error
and at a concrete hash-headed position. -/
theorem localized_path_no_colon_hash_witness :
    ((newCompileError (fun _ => Except.error "e") (fun s => s) "a.go:1: msg").Path ≠ "" ∧
      ∀ c ∈ (newCompileError (fun _ => Except.error "e") (fun s => s)
          "a.go:1: msg").Path.data, c ≠ ':' ∧ c ≠ '#') ∧
    (("# pkg".data).head? = some '#' ∧ matchAt ("# pkg".data) = none) := by
  refine ⟨⟨by decide, ?_⟩, by decide, ?_⟩
  · exact localized_path_no_colon_hash.1 (fun _ => Except.error "e") (fun s => s)
      "a.go:1: msg" (by decide)
  · exact localized_path_no_colon_hash.2 ("# pkg".data) (by decide)

theorem buildLoop_n_le_fetched (rl : String → Except String (List String))
    (ap : String → String) :
    ∀ (steps : List StepResult) (gotten : List String),
      (buildLoop rl ap gotten steps).2.1 ≤ (buildLoop rl ap gotten steps).2.2.length + 1 := by
  intro steps
  induction steps with
  | nil => intro gotten; simp [buildLoop]
  | cons step rest ih =>
    intro gotten
    cases step with
    | ok => simp [buildLoop]
    | fail output fetchErr =>
      simp only [buildLoop]
      rcases hfi : findImportError output.data with _ | pkg
      · simp
      · by_cases hg : pkg ∈ gotten
        · simp [hg]
        · simp only [hg, if_false]
          cases fetchErr with
          | some g => simp
          | none =>
            simp only [List.length_cons]
            have := ih (pkg :: gotten)
            omega

theorem buildLoop_fetched_nodup (rl : String → Except String (List String))
    (ap : String → String) :
    ∀ (steps : List StepResult) (gotten : List String),
      (buildLoop rl ap gotten steps).2.2.Nodup ∧
      ∀ p ∈ (buildLoop rl ap gotten steps).2.2, p ∉ gotten := by
  intro steps
  induction steps with
  | nil => intro gotten; simp [buildLoop]
  | cons step rest ih =>
    intro gotten
    cases step with
    | ok => simp [buildLoop]
    | fail output fetchErr =>
      simp only [buildLoop]
      rcases hfi : findImportError output.data with _ | pkg
      · simp
      · by_cases hg : pkg ∈ gotten
        · simp [hg]
        · simp only [hg, if_false]
          cases fetchErr with
          | some g => simp [hg]
          | none =>
            simp only []
            obtain ⟨hnd, hnotin⟩ := ih (pkg :: gotten)
            constructor
            · rw [List.nodup_cons]
              exact ⟨fun hmem => (hnotin pkg hmem) (List.mem_cons_self _ _), hnd⟩
            · intro p hp
              rcases List.mem_cons.1 hp with rfl | hp'
              · exact hg
              · intro hpg
                exact (hnotin p hp') (List.mem_cons_of_mem _ hpg)

theorem buildLoop_fetched_missing (rl : String → Except String (List String))
    (ap : String → String) :
    ∀ (steps : List StepResult) (gotten : List String),
      ∀ p ∈ (buildLoop rl ap gotten steps).2.2, p ∈ missingList steps := by
  intro steps
  induction steps with
  | nil => intro gotten; simp [buildLoop]
  | cons step rest ih =>
    intro gotten
    cases step with
    | ok => simp [buildLoop]
    | fail output fetchErr =>
      simp only [buildLoop]
      rcases hfi : findImportError output.data with _ | pkg
      · simp
      · by_cases hg : pkg ∈ gotten
        · simp [hg]
        · simp only [hg, if_false]
          have hsm : stepMissing (StepResult.fail output fetchErr) = some pkg := hfi
          have hml : missingList (StepResult.fail output fetchErr :: rest)
              = pkg :: missingList rest := by
            unfold missingList
            rw [List.filterMap_cons, hsm]
          cases fetchErr with
          | some g =>
            intro p hp
            simp only [List.mem_singleton] at hp
            subst hp
            rw [hml]
            exact List.mem_cons_self _ _
          | none =>
            intro p hp
            simp only [] at hp
            rw [hml]
            rcases List.mem_cons.1 hp with rfl | hp'
            · exact List.mem_cons_self _ _
            · exact List.mem_cons_of_mem _ (ih (pkg :: gotten) p hp')

/-- C2: the retry loop terminates: fetched packages are pairwise distinct
(no missing package is ever fetched twice) and the number of build
invocations is at most the number of distinct missing packages
encountered plus one. -/
theorem buildLoop_terminates (rl : String → Except String (List String))
    (ap : String → String) (steps : List StepResult) :
    ((buildLoop rl ap [] steps).2.2).Nodup ∧
    (buildLoop rl ap [] steps).2.1 ≤ (missingList steps).dedup.length + 1 := by
  obtain ⟨hnd, _⟩ := buildLoop_fetched_nodup rl ap steps []
  refine ⟨hnd, ?_⟩
  have hsub : (buildLoop rl ap [] steps).2.2 ⊆ (missingList steps).dedup := by
    intro p hp
    exact List.mem_dedup.2 (buildLoop_fetched_missing rl ap steps [] p hp)
  have hlen : (buildLoop rl ap [] steps).2.2.length ≤ (missingList steps).dedup.length :=
    (List.subperm_of_subset hnd hsub).length_le
  have := buildLoop_n_le_fetched rl ap steps []
  omega

/-- C4: a missing-import diagnostic for the same package seen again after
a fetch-and-retry fails the build on the second attempt with the error
built from that attempt's build output, with no third attempt and no
second fetch; and a failing fetch fails the build at once with the error
built from the build output captured before the fetch, not from the
fetch's own output. -/
theorem buildLoop_no_third_attempt (rl : String → Except String (List String))
    (ap : String → String) :
    (∀ (p out1 out2 : String) (fe : Option String) (rest : List StepResult),
      findImportError out1.data = some p →
      findImportError out2.data = some p →
      buildLoop rl ap [] (StepResult.fail out1 none :: StepResult.fail out2 fe :: rest)
        = (some (BuildResult.failed (newCompileError rl ap out2)), 2, [p])) ∧
    (∀ (p out g : String) (rest : List StepResult) (gotten : List String),
      findImportError out.data = some p → p ∉ gotten →
      buildLoop rl ap gotten (StepResult.fail out (some g) :: rest)
        = (some (BuildResult.failed (newCompileError rl ap out)), 1, [p])) := by
  constructor
  · intro p out1 out2 fe rest h1 h2
    simp only [buildLoop]
    rw [h1]
    have hnotin : ¬ (p ∈ ([] : List String)) := List.not_mem_nil p
    simp only [hnotin, if_false]
    rw [h2]
    have hin : p ∈ [p] := List.mem_singleton.2 rfl
    simp [hin]
  · intro p out g rest gotten h hnotin
    simp only [buildLoop]
    rw [h]
    simp [hnotin]

/-- Runs the loop on a concrete outcome sequence where the same package
is missing twice, and on a concrete failing fetch, discharging the
hypotheses of the no-third-attempt theorem. -/
theorem buildLoop_no_third_attempt_witness :
    (findImportError ("import \"p\": cannot find package".data) = some "p" ∧
      buildLoop (fun _ => Except.error "e") (fun s => s) []
          [StepResult.fail "import \"p\": cannot find package" none,
            StepResult.fail "import \"p\": cannot find package" none]
        = (some (BuildResult.failed (newCompileError (fun _ => Except.error "e")
            (fun s => s) "import \"p\": cannot find package")), 2, ["p"])) ∧
    (findImportError ("import \"q\": cannot find package".data) = some "q" ∧
      ¬ ("q" ∈ ([] : List String)) ∧
      buildLoop (fun _ => Except.error "e") (fun s => s) []
          [StepResult.fail "import \"q\": cannot find package" (some "get failed")]
        = (some (BuildResult.failed (newCompileError (fun _ => Except.error "e")
            (fun s => s) "import \"q\": cannot find package")), 1, ["q"])) := by
  constructor
  · exact ⟨by decide,
      (buildLoop_no_third_attempt (fun _ => Except.error "e") (fun s => s)).1
        "p" "import \"p\": cannot find package" "import \"p\": cannot find package"
        none [] (by decide) (by decide)⟩
  · exact ⟨by decide, by decide,
      (buildLoop_no_third_attempt (fun _ => Except.error "e") (fun s => s)).2
        "q" "import \"q\": cannot find package" "get failed" [] [] (by decide)
        (by decide)⟩

/-- C8 counterexample: a failure to clear the scratch directory is only
logged; the attempt continues (fatalMsg stays none), so clearing failure
is not fatal as the claim states. -/
theorem prepare_clear_failure_cex :
    (prepare (some "permission denied") none none none).fatalMsg = none ∧
    (prepare (some "permission denied") none none none).log
      = ["Failed to remove tmp dir: permission denied"] :=
  ⟨rfl, rfl⟩

/-- C8 (amended): Prepare recreates the scratch directory and writes the
entry-point source; a failure to clear the directory is reported in the
log but is not fatal, while a failure to create the directory, create the
entry-point file or write the source is fatal to the attempt, reported in
the fatal message, and not retried. -/
theorem prepare_failure_modes (re me ce we : Option String) :
    ((prepare re me ce we).log =
      match re with
      | some e => ["Failed to remove tmp dir: " ++ e]
      | none => []) ∧
    (∀ e, me = some e →
      (prepare re me ce we).fatalMsg = some ("Failed to make tmp directory: " ++ e)) ∧
    (∀ e, me = none → ce = some e →
      (prepare re me ce we).fatalMsg = some ("Failed to create main.go: " ++ e)) ∧
    (∀ e, me = none → ce = none → we = some e →
      (prepare re me ce we).fatalMsg = some ("Failed to write to main.go: " ++ e)) ∧
    (me = none → ce = none → we = none → (prepare re me ce we).fatalMsg = none) := by
  cases re <;> cases me <;> cases ce <;> cases we <;>
    refine ⟨rfl, ?_, ?_, ?_, ?_⟩ <;> intro _ <;> simp_all [prepare]

/-- Evaluates prepare at concrete failures, discharging the hypotheses of
the failure-mode theorem. -/
theorem prepare_failure_modes_witness :
    ((some "disk full" : Option String) = some "disk full") ∧
    (prepare none (some "disk full") none none).fatalMsg
      = some ("Failed to make tmp directory: " ++ "disk full") ∧
    (prepare none none none (some "io error")).fatalMsg
      = some ("Failed to write to main.go: " ++ "io error") :=
  ⟨rfl,
    (prepare_failure_modes none (some "disk full") none none).2.1 "disk full" rfl,
    (prepare_failure_modes none none none (some "io error")).2.2.2.1 "io error" rfl rfl rfl⟩

theorem mem_importKeys_of_mget {m : AliasMap} {k v : String}
    (h : mget m k = some v) : k ∈ importKeys m := by
  induction m with
  | nil => simp [mget] at h
  | cons p t ih =>
    obtain ⟨k0, v0⟩ := p
    by_cases hk : k0 = k
    · subst hk
      simp [importKeys]
    · simp [mget, hk] at h
      simp [importKeys]
      right
      simpa [importKeys] using ih h

theorem addInitAliases_append (m : AliasMap) (l1 l2 : List String) :
    addInitAliases m (l1 ++ l2) = addInitAliases (addInitAliases m l1) l2 := by
  unfold addInitAliases
  rw [List.foldl_append]

/-- C9: when db.import is configured, its value is appended to
InitImportPaths before alias computation, so it appears as a key of the
alias table — with the discard alias unless the table without the
db.import step already aliased it — and hence among the generated
program's import paths. -/
theorem dbImport_in_aliases (config : String → Option String) (src : SourceInfo)
    (p : String) (h : config "db.import" = some p) :
    mget (calcImportAliases (addDbImport config src)) p
      = some ((mget (calcImportAliases src) p).getD "_") ∧
    p ∈ importKeys (calcImportAliases (addDbImport config src)) := by
  have hsrc : addDbImport config src
      = { src with InitImportPaths := src.InitImportPaths ++ [p] } := by
    unfold addDbImport
    rw [h]
  have hspec : specAliases (addDbImport config src) = specAliases src := by
    rw [hsrc]
    rfl
  have hcalc : calcImportAliases (addDbImport config src)
      = addInitAliases (calcImportAliases src) [p] := by
    unfold calcImportAliases
    rw [hspec, hsrc]
    show addInitAliases (specAliases src) (src.InitImportPaths ++ [p]) = _
    rw [addInitAliases_append]
  have hget : mget (calcImportAliases (addDbImport config src)) p
      = some ((mget (calcImportAliases src) p).getD "_") := by
    rw [hcalc]
    rcases hm : mget (calcImportAliases src) p with _ | w
    · show mget (match mget (calcImportAliases src) p with
        | some _ => calcImportAliases src
        | none => mset (calcImportAliases src) p "_") p = _
      rw [hm]
      rw [mget_mset_of_none p _ hm]
      simp
    · show mget (match mget (calcImportAliases src) p with
        | some _ => calcImportAliases src
        | none => mset (calcImportAliases src) p "_") p = _
      rw [hm]
      simp [hm]
  refine ⟨hget, mem_importKeys_of_mget hget⟩

/-- Evaluates the db.import theorem at a concrete configuration and an
empty SourceInfo, discharging its hypothesis. -/
theorem dbImport_in_aliases_witness :
    ((fun k => if k = "db.import" then some "db/driver" else none) "db.import"
      = some "db/driver") ∧
    mget (calcImportAliases (addDbImport
        (fun k => if k = "db.import" then some "db/driver" else none)
        ⟨[], [], []⟩)) "db/driver"
      = some ((mget (calcImportAliases ⟨[], [], []⟩) "db/driver").getD "_") ∧
    "db/driver" ∈ importKeys (calcImportAliases (addDbImport
        (fun k => if k = "db.import" then some "db/driver" else none)
        ⟨[], [], []⟩)) := by
  refine ⟨by decide, ?_, ?_⟩
  · exact (dbImport_in_aliases
      (fun k => if k = "db.import" then some "db/driver" else none)
      ⟨[], [], []⟩ "db/driver" (by decide)).1
  · exact (dbImport_in_aliases
      (fun k => if k = "db.import" then some "db/driver" else none)
      ⟨[], [], []⟩ "db/driver" (by decide)).2

end Harness
